import Mathlib

/-!
Shallow embedding of `src/preliminary_review_app.py` (fund review tracker).

The program persists one SQLite table `funds` and manipulates it through a
handful of small functions (`add_fund`, `load_df`, `set_field`, `swap_order`,
`delete_row`, `toggle_step`) plus the row-loop UI guards (the Add button is
disabled for a blank name, the reorder arrows are disabled at the boundaries,
the delete control is rendered only when `step7_rej` is set).

The table is modelled as a `List Fund`; each SQL statement is translated
clause by clause (an `UPDATE ... WHERE id=?` is a `List.map` touching every
row whose id matches, `ORDER BY ord, id` is sorting by the lexicographic key
`(ord, id)`, `COALESCE(MAX(ord),0)` is `maxOrd`).  Errors of the spec's
taxonomy are an `Except` result: an operation that refuses to act returns
`.error e` and hands no successor table to the caller, which models the
controller boundary where the prior state is retained.
-/

/-- The six steps, in the fixed order of the `STEPS` list of the source. -/
inductive Step : Type
  | info
  | anlys
  | myrev
  | partn
  | email
  | rej
  deriving DecidableEq, Repr

/-- Error taxonomy of the spec (§7). -/
inductive Err : Type
  | validationError
  | notFoundError
  | policyError
  deriving DecidableEq, Repr

/-- Reorder direction of the arrow controls. -/
inductive Dir : Type
  | up
  | down
  deriving DecidableEq, Repr

/-- One row of the `funds` table, column for column from `init_db`:
`id INTEGER PRIMARY KEY`, `ord INTEGER`, `fund_name TEXT`,
`assigned_date TEXT`, six `INTEGER 0/1` step flags, six nullable
`TEXT` step dates. -/
structure Fund : Type where
  id : Nat
  ord : Int
  fund_name : String
  assigned_date : String
  step2_info : Bool
  step3_anlys : Bool
  step4_myrev : Bool
  step5_partn : Bool
  step6_email : Bool
  step7_rej : Bool
  step2_info_date : Option String
  step3_anlys_date : Option String
  step4_myrev_date : Option String
  step5_partn_date : Option String
  step6_email_date : Option String
  step7_rej_date : Option String
  deriving DecidableEq, Repr

/-- Read the `step*` flag column named by a step. -/
def Fund.flagOf (f : Fund) : Step → Bool
  | .info => f.step2_info
  | .anlys => f.step3_anlys
  | .myrev => f.step4_myrev
  | .partn => f.step5_partn
  | .email => f.step6_email
  | .rej => f.step7_rej

/-- Read the `step*_date` column named by a step. -/
def Fund.dateOf (f : Fund) : Step → Option String
  | .info => f.step2_info_date
  | .anlys => f.step3_anlys_date
  | .myrev => f.step4_myrev_date
  | .partn => f.step5_partn_date
  | .email => f.step6_email_date
  | .rej => f.step7_rej_date

/-- Write the `step*` flag column named by a step. -/
def Fund.setFlag (f : Fund) (s : Step) (b : Bool) : Fund :=
  match s with
  | .info => { f with step2_info := b }
  | .anlys => { f with step3_anlys := b }
  | .myrev => { f with step4_myrev := b }
  | .partn => { f with step5_partn := b }
  | .email => { f with step6_email := b }
  | .rej => { f with step7_rej := b }

/-- Write the `step*_date` column named by a step. -/
def Fund.setDate (f : Fund) (s : Step) (d : Option String) : Fund :=
  match s with
  | .info => { f with step2_info_date := d }
  | .anlys => { f with step3_anlys_date := d }
  | .myrev => { f with step4_myrev_date := d }
  | .partn => { f with step5_partn_date := d }
  | .email => { f with step6_email_date := d }
  | .rej => { f with step7_rej_date := d }

/-- The full set of columns of the `funds` table. -/
inductive Col : Type
  | cid
  | cord
  | cname
  | cassigned
  | cflag (s : Step)
  | cdate (s : Step)
  deriving DecidableEq, Repr

/-- A column's value, tagged by SQLite storage class. -/
inductive ColVal : Type
  | vnat (n : Nat)
  | vint (n : Int)
  | vtext (t : String)
  | vflag (b : Bool)
  | vdate (d : Option String)
  deriving DecidableEq, Repr

/-- Read any column of a row. -/
def Fund.colVal (f : Fund) : Col → ColVal
  | .cid => .vnat f.id
  | .cord => .vint f.ord
  | .cname => .vtext f.fund_name
  | .cassigned => .vtext f.assigned_date
  | .cflag s => .vflag (f.flagOf s)
  | .cdate s => .vdate (f.dateOf s)

/-- The fields that the program ever passes to `set_field`: the name, the
assigned date, a step flag, a step date.  (`ord` is updated only by
`swap_order`'s own statements; `id` is never updated.) -/
inductive FundField : Type
  | fname
  | fassigned
  | fflag (s : Step)
  | fdate (s : Step)
  deriving DecidableEq, Repr

/-- The type of value carried to `set_field` for each field. -/
def FieldVal : FundField → Type
  | .fname => String
  | .fassigned => String
  | .fflag _ => Bool
  | .fdate _ => Option String

/-- The column a field updates. -/
def FundField.toCol : FundField → Col
  | .fname => .cname
  | .fassigned => .cassigned
  | .fflag s => .cflag s
  | .fdate s => .cdate s

/-- Apply `SET {field}=?` to one row. -/
def Fund.setField (f : Fund) : (fld : FundField) → FieldVal fld → Fund
  | .fname, v => { f with fund_name := v }
  | .fassigned, v => { f with assigned_date := v }
  | .fflag s, v => f.setFlag s v
  | .fdate s, v => f.setDate s v

/-- The persisted table. -/
abbrev Store : Type := List Fund

/-- `SELECT ... FROM funds WHERE id=?` (first matching row). -/
def findFund (s : Store) (i : Nat) : Option Fund :=
  s.find? (fun f => f.id = i)

/-- The display order of `load_df`: `ORDER BY ord, id` ascending,
lexicographically. -/
def displayLe (a b : Fund) : Prop :=
  a.ord < b.ord ∨ (a.ord = b.ord ∧ a.id ≤ b.id)

instance : DecidableRel displayLe := fun a b => by
  unfold displayLe; infer_instance

/-- Strict display order (used for uniqueness arguments). -/
def displayLt (a b : Fund) : Prop :=
  a.ord < b.ord ∨ (a.ord = b.ord ∧ a.id < b.id)

instance : DecidableRel displayLt := fun a b => by
  unfold displayLt; infer_instance

/-- Strict order on the `ord` column alone. -/
def ordLt (a b : Fund) : Prop :=
  a.ord < b.ord

instance : DecidableRel ordLt := fun a b => by
  unfold ordLt; infer_instance

/-- `load_df`: `SELECT * FROM funds ORDER BY ord, id`. -/
def get_all (s : Store) : Store :=
  List.insertionSort displayLe s

/-- `SELECT COALESCE(MAX(ord),0) FROM funds` (the Python `or 0` only
re-maps a zero result to zero, so it does not change the value). -/
def maxOrd : Store → Int
  | [] => 0
  | f :: fs => fs.foldl (fun m g => max m g.ord) f.ord

/-- A fresh primary key for an insert: larger than every key in the table. -/
def freshId (s : Store) : Nat :=
  (s.map Fund.id).foldl max 0 + 1

/-- Python's `str.strip()`: drop leading and trailing whitespace,
modelled over the string's character list. -/
def pyStrip (s : String) : String :=
  String.mk (((s.data.dropWhile Char.isWhitespace).reverse.dropWhile Char.isWhitespace).reverse)

/-- The row built by `INSERT INTO funds (ord, fund_name, assigned_date)`;
every other column takes its schema default (`0` flags, `NULL` dates). -/
def newFund (s : Store) (name assigned : String) : Fund :=
  { id := freshId s
    ord := maxOrd s + 10
    fund_name := pyStrip name
    assigned_date := assigned
    step2_info := false
    step3_anlys := false
    step4_myrev := false
    step5_partn := false
    step6_email := false
    step7_rej := false
    step2_info_date := none
    step3_anlys_date := none
    step4_myrev_date := none
    step5_partn_date := none
    step6_email_date := none
    step7_rej_date := none }

/-- `create`: `add_fund` together with the Add control's guard
(`disabled=not name.strip()`), which refuses the action when the trimmed
name is empty; per the spec's taxonomy the refusal is `ValidationError`. -/
def create (s : Store) (name assigned : String) : Except Err Store :=
  if pyStrip name = "" then .error .validationError
  else .ok (s ++ [newFund s name assigned])

/-- `set_field`: `UPDATE funds SET {field}=? WHERE id=?` (touches every
row whose id matches). -/
def set_field (s : Store) (i : Nat) (fld : FundField) (v : FieldVal fld) : Store :=
  s.map (fun g => if g.id = i then g.setField fld v else g)

/-- `swap_order`: fetch both `ord` values, then run the two `UPDATE`s in
source order.  A missing row makes the fetch blow up before anything is
written (`fetchone()` returns `None`), i.e. `NotFoundError` with the table
untouched. -/
def swap_order (s : Store) (ia ib : Nat) : Except Err Store :=
  match findFund s ia, findFund s ib with
  | some fa, some fb =>
      .ok (((s.map (fun g => if g.id = ia then { g with ord := fb.ord } else g)).map
        (fun g => if g.id = ib then { g with ord := fa.ord } else g)))
  | _, _ => .error .notFoundError

/-- `delete_fund`: `delete_row` guarded by the row loop, which renders the
delete control only when `step7_rej` is set (`if row["step7_rej"]:`); per
the spec's taxonomy the refusal is `PolicyError`. -/
def delete_fund (s : Store) (i : Nat) : Except Err Store :=
  match findFund s i with
  | none => .error .notFoundError
  | some f =>
      if f.step7_rej then .ok (s.filter (fun g => g.id ≠ i))
      else .error .policyError

/-- `toggle_step`: read the current flag, then either undo
(`set_field(id, col, 0)`; `set_field(id, col+"_date", None)`) or do and
stamp (`set_field(id, col, 1)`; `set_field(id, col+"_date", today)`), in
source order.  `today` stands for `TODAY_ISO()`. -/
def toggle_step (s : Store) (i : Nat) (st : Step) (today : String) : Store :=
  match findFund s i with
  | none => s
  | some f =>
      if f.flagOf st then
        set_field (set_field s i (.fflag st) false) i (.fdate st) none
      else
        set_field (set_field s i (.fflag st) true) i (.fdate st) (some today)

/-- Exchange the `ord` values of the rows at display positions `j` and
`j+1` of a display sequence (the shape `reorder` produces on a
non-boundary row). -/
def swapAdjOrd (t : List Fund) (j : Nat) : List Fund :=
  t.take j ++
    (match t.drop j with
     | a :: b :: rest => { b with ord := a.ord } :: { a with ord := b.ord } :: rest
     | l => l)

/-- `reorder`: the arrow controls of the row loop.  The row's display
position comes from the loaded frame (`get_all`); the `up` arrow is
disabled on the first row and otherwise swaps with the previous row, `down`
symmetrically with the next row. -/
def reorder (s : Store) (i : Nat) (dir : Dir) : Store :=
  let t := get_all s
  match t.findIdx? (fun f => f.id = i) with
  | none => s
  | some k =>
      match dir with
      | .up =>
          if k = 0 then s
          else
            match t.get? (k - 1) with
            | none => s
            | some p =>
                match swap_order s i p.id with
                | .ok s' => s'
                | .error _ => s
      | .down =>
          if k + 1 < t.length then
            match t.get? (k + 1) with
            | none => s
            | some nxt =>
                match swap_order s i nxt.id with
                | .ok s' => s'
                | .error _ => s
          else s

/-- The per-step date invariant of the spec: `completed_on` is non-null
iff `done` is true. -/
def stepOk (f : Fund) (st : Step) : Prop :=
  f.dateOf st ≠ none ↔ f.flagOf st = true

/-! ## Helper lemmas -/

instance (f : Fund) (st : Step) : Decidable (stepOk f st) := by
  unfold stepOk; infer_instance

theorem Fund.id_setFlag (f : Fund) (st : Step) (b : Bool) : (f.setFlag st b).id = f.id := by
  cases st <;> rfl

theorem Fund.id_setDate (f : Fund) (st : Step) (d : Option String) :
    (f.setDate st d).id = f.id := by
  cases st <;> rfl

theorem Fund.id_setField (f : Fund) (fld : FundField) (v : FieldVal fld) :
    (f.setField fld v).id = f.id := by
  cases fld <;> first
    | rfl
    | (apply Fund.id_setFlag)
    | (apply Fund.id_setDate)

theorem Fund.flagOf_setFlag_same (f : Fund) (st : Step) (b : Bool) :
    (f.setFlag st b).flagOf st = b := by
  cases st <;> rfl

theorem Fund.dateOf_setDate_same (f : Fund) (st : Step) (d : Option String) :
    (f.setDate st d).dateOf st = d := by
  cases st <;> rfl

theorem Fund.flagOf_setDate (f : Fund) (st st' : Step) (d : Option String) :
    (f.setDate st d).flagOf st' = f.flagOf st' := by
  cases st <;> cases st' <;> rfl

theorem Fund.dateOf_setFlag (f : Fund) (st st' : Step) (b : Bool) :
    (f.setFlag st b).dateOf st' = f.dateOf st' := by
  cases st <;> cases st' <;> rfl

/-- `find?` by id commutes with a map that preserves ids. -/
theorem findFund_map (s : Store) (i : Nat) (g : Fund → Fund)
    (hg : ∀ f, (g f).id = f.id) : findFund (s.map g) i = (findFund s i).map g := by
  induction s with
  | nil => rfl
  | cons a l ih =>
      unfold findFund at *
      by_cases ha : a.id = i
      · simp [List.find?_cons, hg a, ha]
      · simp only [List.map_cons, List.find?_cons]
        have : ((g a).id = i) = False := by simp [hg a, ha]
        simp [hg a, ha, ih]

theorem findFund_some_id (s : Store) (i : Nat) (f : Fund) (hf : findFund s i = some f) :
    f.id = i := by
  have := List.find?_some hf
  simpa using this

/-- Looking up the updated id after `set_field`. -/
theorem findFund_set_field (s : Store) (i : Nat) (fld : FundField) (v : FieldVal fld)
    (f : Fund) (hf : findFund s i = some f) :
    findFund (set_field s i fld v) i = some (f.setField fld v) := by
  unfold set_field
  rw [findFund_map s i _ (fun g => by
    by_cases hgi : g.id = i
    · simp [hgi, Fund.id_setField]
    · simp [hgi])]
  rw [hf]
  have : f.id = i := findFund_some_id s i f hf
  simp [this]

/-- What `toggle_step` does to the addressed row. -/
theorem findFund_toggle (s : Store) (i : Nat) (st : Step) (today : String) (f : Fund)
    (hf : findFund s i = some f) :
    findFund (toggle_step s i st today) i =
      some (if f.flagOf st then (f.setFlag st false).setDate st none
            else (f.setFlag st true).setDate st (some today)) := by
  unfold toggle_step
  rw [hf]
  dsimp only
  by_cases hd : f.flagOf st
  · rw [if_pos hd, if_pos hd]
    have h1 := findFund_set_field s i (.fflag st) false f hf
    have h2 := findFund_set_field (set_field s i (.fflag st) false) i (.fdate st) none _ h1
    exact h2
  · rw [if_neg hd, if_neg hd]
    have h1 := findFund_set_field s i (.fflag st) true f hf
    have h2 := findFund_set_field (set_field s i (.fflag st) true) i (.fdate st) (some today) _ h1
    exact h2

/-- A base row used by concrete witnesses. -/
def baseFund : Fund :=
  { id := 1
    ord := 10
    fund_name := "Alpha"
    assigned_date := "2024-01-01"
    step2_info := false
    step3_anlys := false
    step4_myrev := false
    step5_partn := false
    step6_email := false
    step7_rej := false
    step2_info_date := none
    step3_anlys_date := none
    step4_myrev_date := none
    step5_partn_date := none
    step6_email_date := none
    step7_rej_date := none }

/-- A rejected row used by concrete witnesses. -/
def rejFund : Fund :=
  { baseFund with id := 2, ord := 20, step7_rej := true, step7_rej_date := some "2024-01-02" }

/-- A third row used by concrete witnesses. -/
def thirdFund : Fund :=
  { baseFund with id := 3, ord := 30 }

/-! ## Claim C1 -/

/-- A row whose "Info Request" step is already done, stamped on an earlier day. -/
def doneInfoFund : Fund :=
  { baseFund with step2_info := true, step2_info_date := some "2024-01-01" }

/-- C1 (counterexample): the claim quantifies over current state
`done=true-or-false`, but starting from a step that is already done
(`done=true`, stamped `2024-01-01`), two `toggle_step` calls on day
`2024-02-02` end at `(done=true, completed_on=2024-02-02)`, not at
`(done=false, completed_on=null)`: the first call clears the step and the
second re-stamps it with today's date. -/
theorem claim_C1_counterexample :
    (findFund (toggle_step (toggle_step [doneInfoFund] 1 Step.info "2024-02-02")
        1 Step.info "2024-02-02") 1).map Fund.step2_info = some true ∧
    (findFund (toggle_step (toggle_step [doneInfoFund] 1 Step.info "2024-02-02")
        1 Step.info "2024-02-02") 1).map Fund.step2_info_date = some (some "2024-02-02") ∧
    (findFund (toggle_step (toggle_step [doneInfoFund] 1 Step.info "2024-02-02")
        1 Step.info "2024-02-02") 1).map Fund.step2_info ≠ some false ∧
    (findFund (toggle_step (toggle_step [doneInfoFund] 1 Step.info "2024-02-02")
        1 Step.info "2024-02-02") 1).map Fund.step2_info_date ≠ some none := by
  refine ⟨rfl, rfl, ?_, ?_⟩ <;> decide

/-- C1 (amended): for every existing fund id and step `s` whose current
state is pending (`done=false`), the first `toggle_step` call flips `done`
to true and stamps `completed_on` with today's date, and a second call
flips `done` back to false and clears `completed_on` to null, returning the
step to `(done=false, completed_on=null)`. -/
theorem claim_C1_theorem (s : Store) (i : Nat) (st : Step) (today : String) (f : Fund)
    (hf : findFund s i = some f) (hpending : f.flagOf st = false) :
    (findFund (toggle_step s i st today) i).map
        (fun g => (g.flagOf st, g.dateOf st)) = some (true, some today) ∧
    (findFund (toggle_step (toggle_step s i st today) i st today) i).map
        (fun g => (g.flagOf st, g.dateOf st)) = some (false, none) := by
  have h1 := findFund_toggle s i st today f hf
  rw [hpending] at h1
  simp only [Bool.false_eq_true, if_false] at h1
  have hflag1 : ((f.setFlag st true).setDate st (some today)).flagOf st = true := by
    rw [Fund.flagOf_setDate, Fund.flagOf_setFlag_same]
  have h2 := findFund_toggle (toggle_step s i st today) i st today _ h1
  rw [hflag1] at h2
  simp only [if_true] at h2
  constructor
  · rw [h1]
    simp [hflag1, Fund.dateOf_setDate_same]
  · rw [h2]
    simp [Fund.flagOf_setDate, Fund.flagOf_setFlag_same, Fund.dateOf_setDate_same]

/-- C1 witness: the amended round trip at a concrete pending store. -/
theorem claim_C1_witness :
    (findFund (toggle_step [baseFund] 1 Step.info "2024-02-02") 1).map
        (fun g => (g.flagOf Step.info, g.dateOf Step.info)) = some (true, some "2024-02-02") ∧
    (findFund (toggle_step (toggle_step [baseFund] 1 Step.info "2024-02-02")
        1 Step.info "2024-02-02") 1).map
        (fun g => (g.flagOf Step.info, g.dateOf Step.info)) = some (false, none) :=
  claim_C1_theorem [baseFund] 1 Step.info "2024-02-02" baseFund rfl rfl

/-! ## Claim C3 -/

/-- C3: `delete_fund` on an existing record refuses with `PolicyError`
when `step7_rej` is false (no successor table is produced, so the store is
unchanged), and when `step7_rej` is true it succeeds and no row with the
deleted id appears in a subsequent `get_all()`. -/
theorem claim_C3_theorem (s : Store) (i : Nat) (f : Fund) (hf : findFund s i = some f) :
    (f.step7_rej = false → delete_fund s i = Except.error Err.policyError) ∧
    (f.step7_rej = true →
      ∃ s', delete_fund s i = Except.ok s' ∧ ∀ g ∈ get_all s', g.id ≠ i) := by
  constructor
  · intro h7
    unfold delete_fund
    rw [hf]
    simp [h7]
  · intro h7
    refine ⟨s.filter (fun g => g.id ≠ i), ?_, ?_⟩
    · unfold delete_fund
      rw [hf]
      simp [h7]
    · intro g hg
      have hmem : g ∈ s.filter (fun g => g.id ≠ i) :=
        (List.perm_insertionSort displayLe _).mem_iff.mp hg
      have := List.of_mem_filter hmem
      simpa using this

/-- C3 witness: refusal on a non-rejected row; success and absence on a
rejected row. -/
theorem claim_C3_witness :
    delete_fund [baseFund] 1 = Except.error Err.policyError ∧
    ∃ s', delete_fund [rejFund] 2 = Except.ok s' ∧ ∀ g ∈ get_all s', g.id ≠ 2 :=
  ⟨(claim_C3_theorem [baseFund] 1 baseFund rfl).1 rfl,
   (claim_C3_theorem [rejFund] 2 rejFund rfl).2 rfl⟩

/-! ## Claim C4 -/

/-- C4: `create` with a name that is empty after trimming refuses with
`ValidationError`, and no record is added (no successor table is ever
produced). -/
theorem claim_C4_theorem (s : Store) (name assigned : String) (h : pyStrip name = "") :
    create s name assigned = Except.error Err.validationError ∧
    ∀ s', create s name assigned ≠ Except.ok s' := by
  unfold create
  rw [if_pos h]
  exact ⟨rfl, fun s' hc => by exact Except.noConfusion hc⟩

/-- C4 witness: a blank name on a concrete store. -/
theorem claim_C4_witness :
    create [baseFund] "   " "2024-03-01" = Except.error Err.validationError ∧
    ∀ s', create [baseFund] "   " "2024-03-01" ≠ Except.ok s' :=
  claim_C4_theorem [baseFund] "   " "2024-03-01" (by decide)

/-! ## Claim C9 -/

/-- C9: if a fund's step satisfies "`completed_on` is non-null iff `done`"
before a `toggle_step` call on that fund and step, it still satisfies it
after the call (the call always writes the flag and the date together). -/
theorem claim_C9_theorem (s : Store) (i : Nat) (st : Step) (today : String) (f : Fund)
    (hf : findFund s i = some f) (hinv : stepOk f st) :
    ∀ f', findFund (toggle_step s i st today) i = some f' → stepOk f' st := by
  intro f' hf'
  rw [findFund_toggle s i st today f hf] at hf'
  by_cases hd : f.flagOf st
  · rw [if_pos hd] at hf'
    cases hf'
    unfold stepOk
    rw [Fund.dateOf_setDate_same, Fund.flagOf_setDate, Fund.flagOf_setFlag_same]
    simp
  · rw [if_neg hd] at hf'
    cases hf'
    unfold stepOk
    rw [Fund.dateOf_setDate_same, Fund.flagOf_setDate, Fund.flagOf_setFlag_same]
    simp

/-- C9 witness: the invariant survives a toggle on a concrete pending row. -/
theorem claim_C9_witness :
    stepOk ((baseFund.setFlag Step.info true).setDate Step.info (some "2024-02-02"))
      Step.info :=
  claim_C9_theorem [baseFund] 1 Step.info "2024-02-02" baseFund rfl (by decide) _ rfl

/-- The composition of `swap_order`'s two row updates, described by cases
on the row's id. -/
theorem upd2_eq (ia ib : Nat) (fa fb : Fund) (x : Fund) :
    (fun g => if g.id = ib then { g with ord := fa.ord } else g)
      ((fun g => if g.id = ia then { g with ord := fb.ord } else g) x) =
      if x.id = ia then
        (if ia = ib then { x with ord := fa.ord } else { x with ord := fb.ord })
      else if x.id = ib then { x with ord := fa.ord } else x := by
  dsimp only
  by_cases h1 : x.id = ia
  · rw [if_pos h1, if_pos h1]
    by_cases h2 : ia = ib
    · have hx : ({ x with ord := fb.ord } : Fund).id = ib := by
        simpa [h1] using h2
      rw [if_pos hx, if_pos h2]
    · have hx : ({ x with ord := fb.ord } : Fund).id ≠ ib := by
        simpa [h1] using h2
      rw [if_neg hx, if_neg h2]
  · rw [if_neg h1, if_neg h1]

/-! ## Claim C7 -/

/-- C7: `swap_order(id_a, id_b)` on two existing rows succeeds in one shot
and exchanges exactly their `ord` values (the fetched originals), leaving
every other column of those rows and every other row untouched; when
either id is absent it fails with `NotFoundError` before anything is
written. -/
theorem claim_C7_theorem (s : Store) (ia ib : Nat) :
    (∀ fa fb, findFund s ia = some fa → findFund s ib = some fb →
      ∃ s', swap_order s ia ib = Except.ok s' ∧ s'.length = s.length ∧
        ∀ j (hj : j < s.length) (hj' : j < s'.length),
          ((s.get ⟨j, hj⟩).id = ia →
            s'.get ⟨j, hj'⟩ = { s.get ⟨j, hj⟩ with ord := fb.ord }) ∧
          ((s.get ⟨j, hj⟩).id ≠ ia → (s.get ⟨j, hj⟩).id = ib →
            s'.get ⟨j, hj'⟩ = { s.get ⟨j, hj⟩ with ord := fa.ord }) ∧
          ((s.get ⟨j, hj⟩).id ≠ ia → (s.get ⟨j, hj⟩).id ≠ ib →
            s'.get ⟨j, hj'⟩ = s.get ⟨j, hj⟩)) ∧
    ((findFund s ia = none ∨ findFund s ib = none) →
      swap_order s ia ib = Except.error Err.notFoundError) := by
  constructor
  · intro fa fb hfa hfb
    refine ⟨_, by unfold swap_order; rw [hfa, hfb], ?_, ?_⟩
    · simp
    · intro j hj hj'
      have hmm : ((s.map fun g => if g.id = ia then { g with ord := fb.ord } else g).map
            fun g => if g.id = ib then { g with ord := fa.ord } else g).get ⟨j, hj'⟩ =
          (fun g => if g.id = ib then { g with ord := fa.ord } else g)
            ((fun g => if g.id = ia then { g with ord := fb.ord } else g)
              (s.get ⟨j, hj⟩)) := by
        simp [List.getElem_map]
      rw [hmm, upd2_eq]
      refine ⟨?_, ?_, ?_⟩
      · intro hja
        rw [if_pos hja]
        by_cases hab : ia = ib
        · have hfab : fa = fb := by
            rw [hab] at hfa; rw [hfa] at hfb; exact Option.some.inj hfb
          rw [if_pos hab, hfab]
        · rw [if_neg hab]
      · intro hja hjb
        rw [if_neg hja, if_pos hjb]
      · intro hja hjb
        rw [if_neg hja, if_neg hjb]
  · intro habs
    unfold swap_order
    rcases habs with h | h
    · rw [h]
    · rw [h]
      cases findFund s ia <;> rfl

/-- C7 witness: a concrete two-row swap, and a refusal on an absent id. -/
theorem claim_C7_witness :
    (∃ s', ∃ h2 : s'.length = 2, swap_order [baseFund, rejFund] 1 2 = Except.ok s' ∧
      s'.get ⟨0, by omega⟩ = { baseFund with ord := rejFund.ord } ∧
      s'.get ⟨1, by omega⟩ = { rejFund with ord := baseFund.ord }) ∧
    swap_order [baseFund, rejFund] 1 99 = Except.error Err.notFoundError := by
  have h := claim_C7_theorem [baseFund, rejFund] 1 2
  obtain ⟨s', hok, hlen, hget⟩ := h.1 baseFund rejFund rfl rfl
  have h2 : s'.length = 2 := by rw [hlen]; rfl
  refine ⟨⟨s', h2, hok, ?_, ?_⟩,
    (claim_C7_theorem [baseFund, rejFund] 1 99).2 (Or.inr rfl)⟩
  · exact (hget 0 (by decide) (by omega)).1 rfl
  · exact (hget 1 (by decide) (by omega)).2.1 (by decide) rfl

/-! ## Claim C8 -/

/-- C8: every operation that can fail raises its error before writing
anything — a refused `create`, `delete_fund` or `swap_order` never
produces a successor table (the caller keeps the prior store) — and
`toggle_step` always writes the step's flag and date as a pair: after any
call the addressed step is either fully set (`done` with today's stamp) or
fully cleared, never the flag without the date or the date without the
flag. -/
theorem claim_C8_theorem (s : Store) :
    (∀ name assigned, pyStrip name = "" → ∀ s', create s name assigned ≠ Except.ok s') ∧
    (∀ i f, findFund s i = some f → f.step7_rej = false →
      ∀ s', delete_fund s i ≠ Except.ok s') ∧
    (∀ ia ib, (findFund s ia = none ∨ findFund s ib = none) →
      ∀ s', swap_order s ia ib ≠ Except.ok s') ∧
    (∀ i st today f', findFund (toggle_step s i st today) i = some f' →
      (f'.flagOf st = true ∧ f'.dateOf st = some today) ∨
      (f'.flagOf st = false ∧ f'.dateOf st = none)) := by
  refine ⟨?_, ?_, ?_, ?_⟩
  · intro name assigned h s' hc
    unfold create at hc
    rw [if_pos h] at hc
    exact Except.noConfusion hc
  · intro i f hf h7 s' hc
    unfold delete_fund at hc
    rw [hf] at hc
    simp [h7] at hc
  · intro ia ib habs s' hc
    unfold swap_order at hc
    rcases habs with h | h
    · rw [h] at hc
      exact Except.noConfusion hc
    · rw [h] at hc
      cases h2 : findFund s ia <;> rw [h2] at hc <;> exact Except.noConfusion hc
  · intro i st today f' hf'
    cases h : findFund s i with
    | none =>
        unfold toggle_step at hf'
        rw [h] at hf'
        rw [h] at hf'
        exact Option.noConfusion hf'
    | some f =>
        rw [findFund_toggle s i st today f h] at hf'
        by_cases hd : f.flagOf st
        · rw [if_pos hd] at hf'
          cases hf'
          right
          rw [Fund.dateOf_setDate_same, Fund.flagOf_setDate, Fund.flagOf_setFlag_same]
          exact ⟨rfl, rfl⟩
        · rw [if_neg hd] at hf'
          cases hf'
          left
          rw [Fund.dateOf_setDate_same, Fund.flagOf_setDate, Fund.flagOf_setFlag_same]
          exact ⟨rfl, rfl⟩

/-- C8 witness: refusals yield no successor store on a concrete table, and
a concrete toggle leaves the pair fully written. -/
theorem claim_C8_witness :
    create [baseFund] "   " "2024-01-01" ≠ Except.ok [baseFund] ∧
    delete_fund [baseFund] 1 ≠ Except.ok [] ∧
    swap_order [baseFund] 1 99 ≠ Except.ok [baseFund] ∧
    ((((baseFund.setFlag Step.info true).setDate Step.info
          (some "2024-02-02")).flagOf Step.info = true ∧
      ((baseFund.setFlag Step.info true).setDate Step.info
          (some "2024-02-02")).dateOf Step.info = some "2024-02-02") ∨
     (((baseFund.setFlag Step.info true).setDate Step.info
          (some "2024-02-02")).flagOf Step.info = false ∧
      ((baseFund.setFlag Step.info true).setDate Step.info
          (some "2024-02-02")).dateOf Step.info = none)) := by
  have h := claim_C8_theorem [baseFund]
  exact ⟨h.1 "   " "2024-01-01" (by decide) [baseFund],
    h.2.1 1 baseFund rfl rfl [],
    h.2.2.1 1 99 (Or.inr rfl) [baseFund],
    h.2.2.2 1 Step.info "2024-02-02" _ rfl⟩

/-! ## Claim C10 -/

theorem Fund.colVal_setFlag (f : Fund) (st : Step) (b : Bool) (c : Col)
    (hc : c ≠ Col.cflag st) : (f.setFlag st b).colVal c = f.colVal c := by
  cases c with
  | cid => cases st <;> rfl
  | cord => cases st <;> rfl
  | cname => cases st <;> rfl
  | cassigned => cases st <;> rfl
  | cdate s' => cases st <;> cases s' <;> rfl
  | cflag s' => cases st <;> cases s' <;> first | rfl | simp_all

theorem Fund.colVal_setDate (f : Fund) (st : Step) (d : Option String) (c : Col)
    (hc : c ≠ Col.cdate st) : (f.setDate st d).colVal c = f.colVal c := by
  cases c with
  | cid => cases st <;> rfl
  | cord => cases st <;> rfl
  | cname => cases st <;> rfl
  | cassigned => cases st <;> rfl
  | cflag s' => cases st <;> cases s' <;> rfl
  | cdate s' => cases st <;> cases s' <;> first | rfl | simp_all

/-- `SET {field}=?` on a row changes no column other than the named one. -/
theorem Fund.colVal_setField (f : Fund) (fld : FundField) (v : FieldVal fld) (c : Col)
    (hc : c ≠ fld.toCol) : (f.setField fld v).colVal c = f.colVal c := by
  cases fld with
  | fname =>
      cases c with
      | cname => exact absurd rfl hc
      | cid => rfl
      | cord => rfl
      | cassigned => rfl
      | cflag s' => cases s' <;> rfl
      | cdate s' => cases s' <;> rfl
  | fassigned =>
      cases c with
      | cassigned => exact absurd rfl hc
      | cid => rfl
      | cord => rfl
      | cname => rfl
      | cflag s' => cases s' <;> rfl
      | cdate s' => cases s' <;> rfl
  | fflag st => exact Fund.colVal_setFlag f st v c hc
  | fdate st => exact Fund.colVal_setDate f st v c hc

/-- C10: `set_field(id, field, value)` changes at most the named column of
the rows with the given id; every other row is untouched, and every other
column of the addressed row — id and sort key included — keeps its
value. -/
theorem claim_C10_theorem (s : Store) (i : Nat) (fld : FundField) (v : FieldVal fld)
    (f : Fund) (hf : findFund s i = some f) :
    (set_field s i fld v).length = s.length ∧
    ∀ j (hj : j < s.length) (hj' : j < (set_field s i fld v).length),
      ((s.get ⟨j, hj⟩).id ≠ i → (set_field s i fld v).get ⟨j, hj'⟩ = s.get ⟨j, hj⟩) ∧
      ((s.get ⟨j, hj⟩).id = i →
        ∀ c : Col, c ≠ fld.toCol →
          ((set_field s i fld v).get ⟨j, hj'⟩).colVal c = (s.get ⟨j, hj⟩).colVal c) := by
  constructor
  · unfold set_field
    simp
  · intro j hj hj'
    have hmm : (set_field s i fld v).get ⟨j, hj'⟩ =
        (fun g => if g.id = i then g.setField fld v else g) (s.get ⟨j, hj⟩) := by
      unfold set_field
      simp [List.getElem_map]
    constructor
    · intro hne
      rw [hmm]
      dsimp only
      rw [if_neg hne]
    · intro heq c hc
      rw [hmm]
      dsimp only
      rw [if_pos heq]
      exact Fund.colVal_setField (s.get ⟨j, hj⟩) fld v c hc

/-- C10 witness: renaming row 1 of a concrete two-row table leaves row 2
and row 1's other columns intact. -/
theorem claim_C10_witness :
    (set_field [baseFund, rejFund] 1 FundField.fname "Beta").length = 2 ∧
    (set_field [baseFund, rejFund] 1 FundField.fname "Beta").get ⟨1, by decide⟩ = rejFund ∧
    ((set_field [baseFund, rejFund] 1 FundField.fname "Beta").get
      ⟨0, by decide⟩).colVal Col.cord = baseFund.colVal Col.cord := by
  have h := claim_C10_theorem [baseFund, rejFund] 1 FundField.fname "Beta" baseFund rfl
  exact ⟨h.1,
    (h.2 1 (by decide) (by decide)).1 (by decide),
    (h.2 0 (by decide) (by decide)).2 rfl Col.cord (by decide)⟩

/-! ## Claim C2 -/

instance : IsTotal Fund displayLe := ⟨by
  intro a b
  unfold displayLe
  rcases lt_trichotomy a.ord b.ord with h | h | h
  · exact Or.inl (Or.inl h)
  · rcases Nat.le_total a.id b.id with h2 | h2
    · exact Or.inl (Or.inr ⟨h, h2⟩)
    · exact Or.inr (Or.inr ⟨h.symm, h2⟩)
  · exact Or.inr (Or.inl h)⟩

instance : IsTrans Fund displayLe := ⟨by
  intro a b c hab hbc
  unfold displayLe at *
  rcases hab with h | ⟨h1, h2⟩ <;> rcases hbc with h' | ⟨h1', h2'⟩
  · exact Or.inl (lt_trans h h')
  · exact Or.inl (h1' ▸ h)
  · exact Or.inl (h1 ▸ h')
  · exact Or.inr ⟨h1.trans h1', h2.trans h2'⟩⟩

instance : IsAntisymm Fund ordLt :=
  ⟨fun _ _ h1 h2 => absurd (lt_trans h1 h2) (lt_irrefl _)⟩

/-- C2: on a table with unique primary keys, `get_all()` returns each
stored row exactly once (it is a permutation of the table) and the result
is sorted ascending by `(ord, id)`. -/
theorem claim_C2_theorem (s : Store) (hIds : (s.map Fund.id).Nodup) :
    (∀ f ∈ s, (get_all s).count f = 1) ∧
    List.Perm (get_all s) s ∧ List.Sorted displayLe (get_all s) := by
  have hperm : List.Perm (get_all s) s := List.perm_insertionSort displayLe s
  refine ⟨?_, hperm, List.sorted_insertionSort displayLe s⟩
  intro f hf
  rw [hperm.count_eq]
  exact List.count_eq_one_of_mem (List.Nodup.of_map Fund.id hIds) hf

/-- C2 witness: a concrete two-row table with ids out of display order. -/
theorem claim_C2_witness :
    (get_all [rejFund, baseFund]).count baseFund = 1 ∧
    List.Perm (get_all [rejFund, baseFund]) [rejFund, baseFund] ∧
    List.Sorted displayLe (get_all [rejFund, baseFund]) := by
  have h := claim_C2_theorem [rejFund, baseFund] (by decide)
  exact ⟨h.1 baseFund (by decide), h.2.1, h.2.2⟩

/-! ## Claim C5 -/

theorem foldl_max_ord (l : List Fund) : ∀ init : Int,
    init ≤ l.foldl (fun m g => max m g.ord) init ∧
    ∀ g ∈ l, g.ord ≤ l.foldl (fun m g => max m g.ord) init := by
  induction l with
  | nil =>
      intro init
      refine ⟨le_refl _, ?_⟩
      intro g hg
      cases hg
  | cons a t ih =>
      intro init
      simp only [List.foldl_cons]
      obtain ⟨h1, h2⟩ := ih (max init a.ord)
      refine ⟨le_trans (le_max_left _ _) h1, ?_⟩
      intro g hg
      rcases List.mem_cons.mp hg with rfl | hg'
      · exact le_trans (le_max_right _ _) h1
      · exact h2 g hg'

/-- Every stored `ord` is bounded by `MAX(ord)`. -/
theorem mem_ord_le_maxOrd (s : Store) (g : Fund) (hg : g ∈ s) : g.ord ≤ maxOrd s := by
  cases s with
  | nil => cases hg
  | cons a t =>
      unfold maxOrd
      rcases List.mem_cons.mp hg with rfl | hg'
      · exact (foldl_max_ord t g.ord).1
      · exact (foldl_max_ord t a.ord).2 g hg'

/-- In a sorted display sequence, a member that every other member
precedes strictly is the last element. -/
theorem sorted_getLast_max : ∀ t : List Fund, List.Sorted displayLe t →
    ∀ r, r ∈ t → (∀ g ∈ t, displayLe r g → g = r) → t.getLast? = some r := by
  intro t
  induction t with
  | nil =>
      intro _ r hr
      cases hr
  | cons a l ih =>
      intro hs r hr hmax
      cases l with
      | nil =>
          rw [List.mem_singleton.mp hr]
          rfl
      | cons b l2 =>
          rw [List.getLast?_cons_cons]
          apply ih hs.of_cons r
          · rcases List.mem_cons.mp hr with rfl | h'
            · have hab : displayLe r b :=
                List.rel_of_sorted_cons hs b (List.mem_cons_self b l2)
              have hbr : b = r := hmax b (by simp) hab
              rw [← hbr]
              exact List.mem_cons_self b l2
            · exact h'
          · intro g hg hle
            exact hmax g (List.mem_cons_of_mem a hg) hle

/-- C5: with a non-blank name, `create` appends a row whose `ord` is
strictly greater than every existing `ord` (`MAX(ord)+10`), so the new
fund is the last row of `get_all()`, and all six step flags are 0 with all
six step dates NULL. -/
theorem claim_C5_theorem (s : Store) (name assigned : String)
    (hname : pyStrip name ≠ "") :
    create s name assigned = Except.ok (s ++ [newFund s name assigned]) ∧
    (∀ g ∈ s, g.ord < (newFund s name assigned).ord) ∧
    (get_all (s ++ [newFund s name assigned])).getLast? =
      some (newFund s name assigned) ∧
    ∀ st : Step, (newFund s name assigned).flagOf st = false ∧
      (newFund s name assigned).dateOf st = none := by
  have hord : ∀ g ∈ s, g.ord < (newFund s name assigned).ord := by
    intro g hg
    have h1 := mem_ord_le_maxOrd s g hg
    show g.ord < maxOrd s + 10
    omega
  refine ⟨by unfold create; rw [if_neg hname], hord, ?_, ?_⟩
  · apply sorted_getLast_max
    · exact List.sorted_insertionSort displayLe _
    · exact ((List.perm_insertionSort displayLe _).mem_iff).mpr (by simp)
    · intro g hg hle
      have hg' : g ∈ s ++ [newFund s name assigned] :=
        (List.perm_insertionSort displayLe _).mem_iff.mp hg
      rcases List.mem_append.mp hg' with h | h
      · exfalso
        have h2 := hord g h
        unfold displayLe at hle
        omega
      · exact List.mem_singleton.mp h
  · intro st
    cases st <;> exact ⟨rfl, rfl⟩

/-- C5 witness: "Alpha Fund IV" created on a one-row table lands last with
all steps pending. -/
theorem claim_C5_witness :
    create [baseFund] "Alpha Fund IV" "2024-03-01" =
      Except.ok ([baseFund] ++ [newFund [baseFund] "Alpha Fund IV" "2024-03-01"]) ∧
    baseFund.ord < (newFund [baseFund] "Alpha Fund IV" "2024-03-01").ord ∧
    (get_all ([baseFund] ++ [newFund [baseFund] "Alpha Fund IV" "2024-03-01"])).getLast? =
      some (newFund [baseFund] "Alpha Fund IV" "2024-03-01") ∧
    ((newFund [baseFund] "Alpha Fund IV" "2024-03-01").flagOf Step.rej = false ∧
      (newFund [baseFund] "Alpha Fund IV" "2024-03-01").dateOf Step.rej = none) := by
  have h := claim_C5_theorem [baseFund] "Alpha Fund IV" "2024-03-01" (by decide)
  exact ⟨h.1, h.2.1 baseFund (by simp), h.2.2.1, h.2.2.2 Step.rej⟩

/-! ## Claim C6 -/

/-- With unique primary keys, looking a member up by its id finds it. -/
theorem findFund_of_mem : ∀ (s : Store), (s.map Fund.id).Nodup →
    ∀ r : Fund, r ∈ s → findFund s r.id = some r := by
  intro s
  induction s with
  | nil =>
      intro _ r hr
      cases hr
  | cons a l ih =>
      intro hIds r hr
      rw [List.map_cons] at hIds
      obtain ⟨ha, hl⟩ := List.nodup_cons.mp hIds
      unfold findFund
      rcases List.mem_cons.mp hr with rfl | hr'
      · rw [List.find?_cons_of_pos]
        simp
      · rw [List.find?_cons_of_neg]
        · exact ih hl r hr'
        · simp only [decide_eq_true_eq]
          intro hcontra
          exact ha (List.mem_map.mpr ⟨r, hr', hcontra.symm⟩)

/-- With unique primary keys, the display index found for a row's id is
the row's position. -/
theorem findIdx_id_of_get : ∀ (t : Store), (t.map Fund.id).Nodup →
    ∀ (k : Nat) (r : Fund), t.get? k = some r →
      t.findIdx? (fun f => f.id = r.id) = some k := by
  intro t
  induction t with
  | nil =>
      intro _ k r hk
      cases hk
  | cons a l ih =>
      intro hIds k r hk
      rw [List.map_cons] at hIds
      obtain ⟨ha, hl⟩ := List.nodup_cons.mp hIds
      cases k with
      | zero =>
          have : a = r := by simpa using hk
          subst this
          rw [List.findIdx?_cons]
          simp
      | succ k =>
          have hk' : l.get? k = some r := by simpa using hk
          have hrl : r ∈ l := List.get?_mem hk'
          have hane : ¬(a.id = r.id) := by
            intro hcontra
            exact ha (List.mem_map.mpr ⟨r, hrl, hcontra.symm⟩)
          rw [List.findIdx?_cons]
          simp only [decide_eq_true_eq, hane, if_false, List.findIdx?_succ]
          rw [ih hl k r hk']
          rfl

/-- A sorted display sequence with pairwise distinct `ord`s is strictly
increasing on `ord`. -/
theorem sorted_pairwise_ordLt (t : Store) (hs : List.Sorted displayLe t)
    (hn : (t.map Fund.ord).Nodup) : List.Pairwise ordLt t := by
  have hne : List.Pairwise (fun a b : Fund => a.ord ≠ b.ord) t :=
    List.pairwise_map.mp hn
  have := List.Pairwise.and hs hne
  exact this.imp (by
    intro a b hab
    obtain ⟨hle, hne'⟩ := hab
    rcases hle with h | ⟨h, _⟩
    · exact h
    · exact absurd h hne')

/-- Function form of `upd2_eq`. -/
theorem upd2_fun_eq (ia ib : Nat) (fa fb : Fund) :
    ((fun g : Fund => if g.id = ib then { g with ord := fa.ord } else g) ∘
      (fun g : Fund => if g.id = ia then { g with ord := fb.ord } else g)) =
    fun x : Fund =>
      if x.id = ia then
        (if ia = ib then { x with ord := fa.ord } else { x with ord := fb.ord })
      else if x.id = ib then { x with ord := fa.ord } else x :=
  funext (fun x => upd2_eq ia ib fa fb x)

/-- `swap_order` does not depend on the order of its two (distinct)
arguments. -/
theorem swap_order_comm (s : Store) (ia ib : Nat) (hne : ia ≠ ib) :
    swap_order s ia ib = swap_order s ib ia := by
  unfold swap_order
  cases h1 : findFund s ia <;> cases h2 : findFund s ib <;> try rfl
  rename_i fa fb
  dsimp only
  congr 1
  rw [List.map_map, List.map_map, upd2_fun_eq ia ib fa fb, upd2_fun_eq ib ia fb fa]
  apply List.map_congr_left
  intro g _
  dsimp only
  rw [if_neg hne, if_neg (Ne.symm hne)]
  by_cases hA : g.id = ia
  · have hB : ¬g.id = ib := fun h => hne (hA.symm.trans h)
    rw [if_pos hA, if_neg hB, if_pos hA]
  · rw [if_neg hA]
    by_cases hB : g.id = ib
    · rw [if_pos hB, if_pos hB]
    · rw [if_neg hB, if_neg hB, if_neg hA]

/-- Swapping the `ord`s of two display-adjacent rows (positions `j`,
`j+1`) exchanges exactly those two rows in the display sequence. -/
theorem swap_display_adjacent (s : Store) (hIds : (s.map Fund.id).Nodup)
    (hOrds : (s.map Fund.ord).Nodup) (j : Nat) (p r : Fund)
    (hp : (get_all s).get? j = some p) (hr : (get_all s).get? (j + 1) = some r) :
    ∃ s', swap_order s r.id p.id = Except.ok s' ∧
      get_all s' = swapAdjOrd (get_all s) j := by
  set t := get_all s with ht
  have hperm : List.Perm t s := List.perm_insertionSort displayLe s
  have hsorted : List.Sorted displayLe t := List.sorted_insertionSort displayLe s
  have htIds : (t.map Fund.id).Nodup := ((hperm.map Fund.id).nodup_iff).mpr hIds
  have htOrds : (t.map Fund.ord).Nodup := ((hperm.map Fund.ord).nodup_iff).mpr hOrds
  have hOrdLt : List.Pairwise ordLt t := sorted_pairwise_ordLt t hsorted htOrds
  obtain ⟨hj1, hrg⟩ := List.get?_eq_some.mp hr
  obtain ⟨hj, hpg⟩ := List.get?_eq_some.mp hp
  have hdrop : t.drop j = p :: r :: t.drop (j + 2) := by
    rw [List.drop_eq_getElem_cons hj, List.drop_eq_getElem_cons hj1]
    rw [← List.get_eq_getElem t ⟨j, hj⟩, ← List.get_eq_getElem t ⟨j + 1, hj1⟩]
    rw [hpg, hrg]
  have hteq : t.take j ++ p :: r :: t.drop (j + 2) = t := by
    rw [← hdrop, List.take_append_drop]
  have hpt : p ∈ t := by
    rw [← hpg]
    exact List.get_mem t j hj
  have hrt : r ∈ t := by
    rw [← hrg]
    exact List.get_mem t (j + 1) hj1
  have hidinj := List.inj_on_of_nodup_map htIds
  have htNodup : t.Nodup := List.Nodup.of_map Fund.id htIds
  have hnd : (t.take j ++ p :: r :: t.drop (j + 2)).Nodup := by
    rw [hteq]
    exact htNodup
  obtain ⟨hndtake, hndmid, hdisj⟩ := List.nodup_append.mp hnd
  have hpr : p ≠ r := by
    intro hcontra
    have := List.nodup_cons.mp hndmid
    exact this.1 (hcontra ▸ List.mem_cons_self r _)
  have hrp_id : r.id ≠ p.id := by
    intro hcontra
    exact hpr (hidinj hpt hrt (by rw [hcontra]))
  have hfp : findFund s p.id = some p :=
    findFund_of_mem s hIds p (hperm.mem_iff.mp hpt)
  have hfr : findFund s r.id = some r :=
    findFund_of_mem s hIds r (hperm.mem_iff.mp hrt)
  refine ⟨_, by unfold swap_order; rw [hfr, hfp], ?_⟩
  -- names for the two updated rows
  set r' : Fund := { r with ord := p.ord } with hr'
  set p' : Fund := { p with ord := r.ord } with hp'
  -- identify the target shape
  have hswap : swapAdjOrd t j = t.take j ++ r' :: p' :: t.drop (j + 2) := by
    unfold swapAdjOrd
    rw [hdrop]
  -- the double update is the pointwise function of upd2_fun_eq
  have hGt : ∀ g ∈ t, g ≠ p → g ≠ r →
      (if g.id = r.id then (if r.id = p.id then { g with ord := r.ord }
          else { g with ord := p.ord })
        else if g.id = p.id then { g with ord := r.ord } else g) = g := by
    intro g hg hgp hgr
    rw [if_neg (fun hcontra => hgr (hidinj hg hrt hcontra)),
      if_neg (fun hcontra => hgp (hidinj hg hpt hcontra))]
  have hmap : t.map
      ((fun g => if g.id = p.id then { g with ord := r.ord } else g) ∘
        (fun g => if g.id = r.id then { g with ord := p.ord } else g)) =
      t.take j ++ p' :: r' :: t.drop (j + 2) := by
    rw [upd2_fun_eq r.id p.id r p]
    conv_lhs => rw [← hteq]
    rw [List.map_append, List.map_cons, List.map_cons]
    have htake : ∀ g ∈ t.take j,
        (if g.id = r.id then (if r.id = p.id then { g with ord := r.ord }
            else { g with ord := p.ord })
          else if g.id = p.id then { g with ord := r.ord } else g) = g := by
      intro g hg
      refine hGt g (List.mem_of_mem_take hg) ?_ ?_
      · intro hcontra
        refine hdisj hg ?_
        rw [hcontra]
        exact List.mem_cons_self p _
      · intro hcontra
        refine hdisj hg ?_
        rw [hcontra]
        exact List.mem_cons_of_mem p (List.mem_cons_self r _)
    have hdropm : ∀ g ∈ t.drop (j + 2),
        (if g.id = r.id then (if r.id = p.id then { g with ord := r.ord }
            else { g with ord := p.ord })
          else if g.id = p.id then { g with ord := r.ord } else g) = g := by
      intro g hg
      obtain ⟨h1, h2⟩ := List.nodup_cons.mp hndmid
      obtain ⟨h3, h4⟩ := List.nodup_cons.mp h2
      refine hGt g (List.mem_of_mem_drop hg) ?_ ?_
      · intro hcontra
        rw [hcontra] at hg
        exact h1 (List.mem_cons_of_mem r hg)
      · intro hcontra
        rw [hcontra] at hg
        exact h3 hg
    have e1 : (t.take j).map (fun x =>
        if x.id = r.id then (if r.id = p.id then { x with ord := r.ord }
          else { x with ord := p.ord })
        else if x.id = p.id then { x with ord := r.ord } else x) = t.take j := by
      rw [List.map_congr_left htake]
      exact List.map_id _
    have e2 : (t.drop (j + 2)).map (fun x =>
        if x.id = r.id then (if r.id = p.id then { x with ord := r.ord }
          else { x with ord := p.ord })
        else if x.id = p.id then { x with ord := r.ord } else x) = t.drop (j + 2) := by
      rw [List.map_congr_left hdropm]
      exact List.map_id _
    have ep : (if p.id = r.id then (if r.id = p.id then { p with ord := r.ord }
          else { p with ord := p.ord })
        else if p.id = p.id then { p with ord := r.ord } else p) = p' := by
      rw [if_neg (Ne.symm hrp_id), if_pos rfl]
    have er : (if r.id = r.id then (if r.id = p.id then { r with ord := r.ord }
          else { r with ord := p.ord })
        else if r.id = p.id then { r with ord := r.ord } else r) = r' := by
      rw [if_pos rfl, if_neg hrp_id]
    rw [e1, e2, ep, er]
  -- permutation chain
  have hperm2 : List.Perm
      ((s.map (fun g => if g.id = r.id then { g with ord := p.ord } else g)).map
        (fun g => if g.id = p.id then { g with ord := r.ord } else g))
      (t.take j ++ r' :: p' :: t.drop (j + 2)) := by
    rw [List.map_map]
    refine List.Perm.trans ?_ (List.Perm.append_left _ (List.Perm.swap r' p' _))
    rw [← hmap]
    exact (hperm.symm).map _
  -- ord multiset of the swapped sequence is unchanged
  have hordeq : (t.take j ++ r' :: p' :: t.drop (j + 2)).map Fund.ord =
      t.map Fund.ord := by
    conv_rhs => rw [← hteq]
    rw [List.map_append, List.map_append, List.map_cons, List.map_cons,
      List.map_cons, List.map_cons]
  -- sortedness of the swapped sequence
  have hOrdLt' : List.Pairwise ordLt (t.take j ++ p :: r :: t.drop (j + 2)) := by
    rw [hteq]
    exact hOrdLt
  obtain ⟨hPtake, hPmid, hPcross⟩ := List.pairwise_append.mp hOrdLt'
  obtain ⟨hp_all, hPmid2⟩ := List.pairwise_cons.mp hPmid
  obtain ⟨hr_all, hPrest⟩ := List.pairwise_cons.mp hPmid2
  have hplr : p.ord < r.ord := hp_all r (List.mem_cons_self r _)
  have hsorted_u : List.Pairwise ordLt (t.take j ++ r' :: p' :: t.drop (j + 2)) := by
    rw [List.pairwise_append]
    refine ⟨hPtake, ?_, ?_⟩
    · rw [List.pairwise_cons]
      constructor
      · intro b hb
        rcases List.mem_cons.mp hb with rfl | hb'
        · exact hplr
        · exact hp_all b (List.mem_cons_of_mem r hb')
      · rw [List.pairwise_cons]
        refine ⟨?_, hPrest⟩
        intro b hb
        exact hr_all b hb
    · intro a ha b hb
      rcases List.mem_cons.mp hb with rfl | hb'
      · exact hPcross a ha p (List.mem_cons_self p _)
      · rcases List.mem_cons.mp hb' with rfl | hb''
        · exact hPcross a ha r (List.mem_cons_of_mem p (List.mem_cons_self r _))
        · exact hPcross a ha b
            (List.mem_cons_of_mem p (List.mem_cons_of_mem r hb''))
  -- the sorted output of the swapped table
  have hfinal_sorted : List.Pairwise ordLt (get_all
      ((s.map (fun g => if g.id = r.id then { g with ord := p.ord } else g)).map
        (fun g => if g.id = p.id then { g with ord := r.ord } else g))) := by
    apply sorted_pairwise_ordLt
    · exact List.sorted_insertionSort displayLe _
    · have hperm3 := (List.perm_insertionSort displayLe
        ((s.map (fun g => if g.id = r.id then { g with ord := p.ord } else g)).map
          (fun g => if g.id = p.id then { g with ord := r.ord } else g))).map Fund.ord
      exact ((hperm3.trans (hperm2.map Fund.ord)).nodup_iff).mpr
        (by rw [hordeq]; exact htOrds)
  rw [hswap]
  exact List.eq_of_perm_of_sorted
    ((List.perm_insertionSort displayLe _).trans hperm2) hfinal_sorted hsorted_u

/-- C6: with unique ids and distinct sort keys, `reorder` is the identity
on the first row for "up" and on the last row for "down"; on any other row
it exchanges exactly the row and its display neighbour (swapping their
`ord` values), leaving every other display position untouched. -/
theorem claim_C6_theorem (s : Store) (hIds : (s.map Fund.id).Nodup)
    (hOrds : (s.map Fund.ord).Nodup) (k : Nat) (hk : k < (get_all s).length) :
    (k = 0 → reorder s ((get_all s).get ⟨k, hk⟩).id Dir.up = s) ∧
    (k + 1 = (get_all s).length →
      reorder s ((get_all s).get ⟨k, hk⟩).id Dir.down = s) ∧
    (k ≠ 0 → get_all (reorder s ((get_all s).get ⟨k, hk⟩).id Dir.up) =
      swapAdjOrd (get_all s) (k - 1)) ∧
    (k + 1 < (get_all s).length →
      get_all (reorder s ((get_all s).get ⟨k, hk⟩).id Dir.down) =
        swapAdjOrd (get_all s) k) := by
  set t := get_all s with ht
  set r : Fund := t.get ⟨k, hk⟩ with hrdef
  have hperm : List.Perm t s := List.perm_insertionSort displayLe s
  have htIds : (t.map Fund.id).Nodup := ((hperm.map Fund.id).nodup_iff).mpr hIds
  have hidinj := List.inj_on_of_nodup_map htIds
  have htNodup : t.Nodup := List.Nodup.of_map Fund.id htIds
  have hkget : t.get? k = some r := List.get?_eq_some.mpr ⟨hk, rfl⟩
  have hfindIdx : t.findIdx? (fun f => f.id = r.id) = some k :=
    findIdx_id_of_get t htIds k r hkget
  refine ⟨?_, ?_, ?_, ?_⟩
  · intro h0
    unfold reorder
    dsimp only
    rw [← ht, hfindIdx]
    dsimp only
    rw [if_pos h0]
  · intro hlast
    unfold reorder
    dsimp only
    rw [← ht, hfindIdx]
    dsimp only
    rw [if_neg (show ¬(k + 1 < t.length) by rw [ht]; omega)]
  · intro hne
    have hk1 : k - 1 < t.length := by rw [ht]; omega
    have hkk : k - 1 + 1 = k := by omega
    set p : Fund := t.get ⟨k - 1, hk1⟩ with hpdef
    have hpget : t.get? (k - 1) = some p := List.get?_eq_some.mpr ⟨hk1, rfl⟩
    have hrget : t.get? (k - 1 + 1) = some r := by
      rw [hkk]
      exact hkget
    obtain ⟨s', hsw, hga⟩ :=
      swap_display_adjacent s hIds hOrds (k - 1) p r hpget hrget
    unfold reorder
    dsimp only
    rw [← ht, hfindIdx]
    dsimp only
    rw [if_neg hne, hpget]
    dsimp only
    rw [hsw]
    exact hga
  · intro hlt
    set nxt : Fund := t.get ⟨k + 1, hlt⟩ with hnxtdef
    have hnget : t.get? (k + 1) = some nxt := List.get?_eq_some.mpr ⟨hlt, rfl⟩
    obtain ⟨s', hsw, hga⟩ :=
      swap_display_adjacent s hIds hOrds k r nxt hkget hnget
    have hrne : r ≠ nxt := by
      intro hcontra
      rw [hrdef, hnxtdef] at hcontra
      have h2 := (List.Nodup.get_inj_iff htNodup).mp hcontra
      have h3 : k = k + 1 := congrArg Fin.val h2
      omega
    have hidne : r.id ≠ nxt.id := by
      intro hcontra
      exact hrne (hidinj (List.get_mem t k hk) (List.get_mem t (k + 1) hlt) hcontra)
    unfold reorder
    dsimp only
    rw [← ht, hfindIdx]
    dsimp only
    rw [if_pos hlt, hnget]
    dsimp only
    rw [swap_order_comm s r.id nxt.id hidne, hsw]
    exact hga

/-- C6 witness: a concrete three-row table (ids 1,2,3 with sort keys
20,10,30, display order 2,1,3): "up" on the first display row is the
identity, "up" on the middle row swaps it with the first, and "down" on
the middle row swaps it with the last. -/
theorem claim_C6_witness :
    (reorder [baseFund, rejFund, thirdFund] ((get_all [baseFund, rejFund, thirdFund]).get
      ⟨0, by decide⟩).id Dir.up = [baseFund, rejFund, thirdFund]) ∧
    (reorder [baseFund, rejFund, thirdFund] ((get_all [baseFund, rejFund, thirdFund]).get
      ⟨2, by decide⟩).id Dir.down = [baseFund, rejFund, thirdFund]) ∧
    (get_all (reorder [baseFund, rejFund, thirdFund]
        ((get_all [baseFund, rejFund, thirdFund]).get ⟨1, by decide⟩).id Dir.up) =
      swapAdjOrd (get_all [baseFund, rejFund, thirdFund]) 0) ∧
    (get_all (reorder [baseFund, rejFund, thirdFund]
        ((get_all [baseFund, rejFund, thirdFund]).get ⟨1, by decide⟩).id Dir.down) =
      swapAdjOrd (get_all [baseFund, rejFund, thirdFund]) 1) := by
  refine ⟨?_, ?_, ?_, ?_⟩
  · exact (claim_C6_theorem [baseFund, rejFund, thirdFund] (by decide) (by decide)
      0 (by decide)).1 rfl
  · exact (claim_C6_theorem [baseFund, rejFund, thirdFund] (by decide) (by decide)
      2 (by decide)).2.1 rfl
  · exact (claim_C6_theorem [baseFund, rejFund, thirdFund] (by decide) (by decide)
      1 (by decide)).2.2.1 (by decide)
  · exact (claim_C6_theorem [baseFund, rejFund, thirdFund] (by decide) (by decide)
      1 (by decide)).2.2.2 (by decide)
